import Mathlib

/-!
Verification of the MMS file-interval resolution and naming protocol
(`heliopy/data/mms.py`).

Shallow embedding conventions:

* Python strings are modelled as `List Char` (`Str`), so that splitting and
  joining can be reasoned about by structural induction.  String comparison
  (`<`, `>`) in Python is lexicographic on code points; it is modelled by
  `pyStrLt` below.
* `datetime.datetime` values are modelled as an integer count of seconds
  (`dt.timedelta(seconds=1)` is `1`); `datetime.date()` truncates to the
  calendar day, modelled by flooring division by 86400 (`dateOf`).  Absolute
  values are produced from calendar dates by `daysFromCivil` (the standard
  civil-calendar day-number algorithm, day 0 = 1970-01-01), so concrete
  dates in the theorems are genuine epoch values.
* Python code that can raise returns `Except PyErr`.  `&` on booleans in
  Python does not short-circuit: both operands are evaluated, which matters
  for `filter_time` (`fstart[-1]` and `idx[0]` are evaluated even when the
  other conjunct is false).
* Lists of files are filtered and permuted by the source only through index
  lists computed from the parsed start times, so wherever a function's
  behaviour depends only on the start times (the interval resolver and the
  time filter), a file is modelled by its parsed start time.
-/

/-- Python strings, modelled as lists of characters. -/
abbrev Str := List Char

/-- Python runtime errors that the modelled code can raise. -/
inductive PyErr where
  | nameError
  | attributeError
  | indexError
  | valueError
  deriving DecidableEq, Repr

/-- Python string `<`: lexicographic comparison on code points. -/
def pyStrLt : Str → Str → Bool
  | [], [] => false
  | [], _ :: _ => true
  | _ :: _, [] => false
  | a :: as, b :: bs => if a < b then true else if b < a then false else pyStrLt as bs

/-- Python string `>`. -/
def pyStrGt (a b : Str) : Bool := pyStrLt b a

/- ### Calendar arithmetic

`datetime` objects are modelled as seconds since 1970-01-01T00:00:00.
`daysFromCivil` is the standard algorithm converting a proleptic-Gregorian
calendar date to a day number with day 0 = 1970-01-01. -/

/-- Day number of a calendar date, day 0 = 1970-01-01. -/
def daysFromCivil (y m d : Int) : Int :=
  let y := if m ≤ 2 then y - 1 else y
  let era := y.fdiv 400
  let yoe := y - era * 400
  let mp := (m + 9).fmod 12
  let doy := (153 * mp + 2).fdiv 5 + d - 1
  let doe := yoe * 365 + yoe.fdiv 4 - yoe.fdiv 100 + doy
  era * 146097 + doe - 719468

/-- Seconds in a day. -/
def secPerDay : Int := 86400

/-- A `datetime.datetime` value, as seconds since the epoch. -/
def mkdt (y m d hh mm ss : Int) : Int :=
  daysFromCivil y m d * secPerDay + hh * 3600 + mm * 60 + ss

/-- `datetime.date()`: the calendar day of a time point (day number). -/
def dateOf (t : Int) : Int := t.fdiv secPerDay

/- ### `MMSDownloader.intervals` (mms.py lines 246-275)

The method parses the start time embedded in each (already time-sorted) file
name and steps through the files backwards: the last file's interval ends at
`self.end_date`, every other file's interval ends one second before the next
file's start (`trange[i+1].start - dt.timedelta(seconds=1)`).  A
`sunpy.time.TimeRange` is modelled as a `(start, end)` pair; files are
modelled by their parsed start times (the method uses nothing else). -/

/-- The backward loop of `MMSDownloader.intervals`, written as structural
recursion: each interval ends one second before the next start, the last
interval ends at `end_date`. -/
def intervals : List Int → Int → List (Int × Int)
  | [], _ => []
  | [s], end_date => [(s, end_date)]
  | s :: s2 :: rest, end_date => (s, s2 - 1) :: intervals (s2 :: rest) end_date

theorem intervals_length (starts : List Int) (e : Int) :
    (intervals starts e).length = starts.length := by
  induction starts with
  | nil => rfl
  | cons s rest ih =>
    cases rest with
    | nil => rfl
    | cons s2 rest2 => simpa [intervals] using ih

theorem intervals_get_fst (starts : List Int) (e : Int) (i : Nat)
    (h : i < (intervals starts e).length) :
    ((intervals starts e).get ⟨i, h⟩).1
      = starts.get ⟨i, by simpa [intervals_length] using h⟩ := by
  induction starts generalizing i with
  | nil => simp [intervals] at h
  | cons s rest ih =>
    cases rest with
    | nil =>
      cases i with
      | zero => rfl
      | succ j => simp [intervals] at h
    | cons s2 rest2 =>
      cases i with
      | zero => rfl
      | succ j =>
        simp only [intervals, List.get_cons_succ]
        exact ih j (by simpa [intervals] using h)

theorem intervals_get_snd (starts : List Int) (e : Int) (i : Nat)
    (h : i + 1 < (intervals starts e).length) :
    ((intervals starts e).get ⟨i, Nat.lt_of_succ_lt h⟩).2
      = starts.get ⟨i + 1, by simpa [intervals_length] using h⟩ - 1 := by
  induction starts generalizing i with
  | nil => simp [intervals] at h
  | cons s rest ih =>
    cases rest with
    | nil => simp [intervals] at h
    | cons s2 rest2 =>
      cases i with
      | zero => rfl
      | succ j =>
        simp only [intervals, List.get_cons_succ]
        exact ih j (by simpa [intervals] using h)

theorem intervals_getLast_snd (starts : List Int) (e : Int) (h : starts ≠ []) :
    ((intervals starts e).getLast?).map Prod.snd = some e := by
  induction starts with
  | nil => exact absurd rfl h
  | cons s rest ih =>
    cases rest with
    | nil => rfl
    | cons s2 rest2 =>
      obtain ⟨x, xs, hx⟩ : ∃ x xs, intervals (s2 :: rest2) e = x :: xs := by
        cases rest2 <;> exact ⟨_, _, rfl⟩
      simp only [intervals]
      rw [hx, List.getLast?_cons_cons, ← hx]
      exact ih (by simp)

/-- Claim C2: for every non-empty list of file start times sorted ascending
and every query end time, the intervals produced by `MMSDownloader.intervals`
satisfy: each interval's end is one second before the next interval's start;
the intervals are non-overlapping (every earlier interval ends strictly
before every later interval starts); and the last interval ends at the query
end date. -/
theorem C2_intervals_contiguous (starts : List Int) (e : Int)
    (hne : starts ≠ []) (hsorted : starts.Sorted (· ≤ ·)) :
    (∀ i (h : i + 1 < (intervals starts e).length),
        ((intervals starts e).get ⟨i, Nat.lt_of_succ_lt h⟩).2
          = ((intervals starts e).get ⟨i + 1, h⟩).1 - 1)
    ∧ (∀ i j (hi : i < (intervals starts e).length)
          (hj : j < (intervals starts e).length), i < j →
        ((intervals starts e).get ⟨i, hi⟩).2
          < ((intervals starts e).get ⟨j, hj⟩).1)
    ∧ ((intervals starts e).getLast?).map Prod.snd = some e := by
  refine ⟨?_, ?_, intervals_getLast_snd starts e hne⟩
  · intro i h
    rw [intervals_get_snd starts e i h, intervals_get_fst starts e (i + 1) h]
  · intro i j hi hj hij
    have hj' : j < starts.length := by simpa [intervals_length] using hj
    have hsucc : i + 1 < (intervals starts e).length := by omega
    have hi1 : i + 1 < starts.length := by simpa [intervals_length] using hsucc
    rw [intervals_get_snd starts e i hsucc, intervals_get_fst starts e j hj]
    have hle : starts.get ⟨i + 1, hi1⟩ ≤ starts.get ⟨j, hj'⟩ := by
      rcases Nat.lt_or_ge (i + 1) j with hlt | hge
      · have hf : (⟨i + 1, hi1⟩ : Fin starts.length) < ⟨j, hj'⟩ :=
          Fin.mk_lt_mk.mpr hlt
        exact hsorted.rel_get_of_lt hf
      · have hij' : i + 1 = j := le_antisymm hij hge
        subst hij'; rfl
    omega

/-- Witness for C2 at a concrete input: the files
`mms1_fpi_fast_l2_20190101_v1.0.0.cdf` and
`mms1_fpi_fast_l2_20190102_v1.0.0.cdf` with query end `2019-01-03` yield the
intervals `[2019-01-01, 2019-01-01T23:59:59]` and `[2019-01-02, 2019-01-03]`
(the spec's §8 resolver scenario). -/
theorem C2_intervals_contiguous_witness :
    [mkdt 2019 1 1 0 0 0, mkdt 2019 1 2 0 0 0] ≠ [] ∧
    (∀ i (h : i + 1 <
        (intervals [mkdt 2019 1 1 0 0 0, mkdt 2019 1 2 0 0 0]
          (mkdt 2019 1 3 0 0 0)).length),
      ((intervals [mkdt 2019 1 1 0 0 0, mkdt 2019 1 2 0 0 0]
          (mkdt 2019 1 3 0 0 0)).get ⟨i, Nat.lt_of_succ_lt h⟩).2
        = ((intervals [mkdt 2019 1 1 0 0 0, mkdt 2019 1 2 0 0 0]
            (mkdt 2019 1 3 0 0 0)).get ⟨i + 1, h⟩).1 - 1) := by
  refine ⟨by decide, ?_⟩
  exact (C2_intervals_contiguous
    [mkdt 2019 1 1 0 0 0, mkdt 2019 1 2 0 0 0] (mkdt 2019 1 3 0 0 0)
    (by decide) (by decide : List.Pairwise (· ≤ ·) _)).1

/- ### String utilities

`str.split(sep)` for a single-character separator, `sep.join(parts)`, and
`os.path.basename` (the part after the last `/`).  Python's `split` keeps
empty fields and returns `[""]` on the empty string. -/

/-- Python `s.split(c)` for a one-character separator. -/
def splitOnChar (c : Char) : Str → List Str
  | [] => [[]]
  | x :: xs =>
    let r := splitOnChar c xs
    if x = c then [] :: r else (x :: r.headD []) :: r.tail

/-- Python `c.join(parts)` for a one-character separator. -/
def joinChar (c : Char) : List Str → Str
  | [] => []
  | [p] => p
  | p :: q :: ps => p ++ c :: joinChar c (q :: ps)

/-- Python `os.path.basename`: the segment after the last `/`. -/
def basename (f : Str) : Str := (splitOnChar '/' f).getLastD []

/-- Python `parts[-1] = f(parts[-1])` (raises on `[]`, which never happens
here: `splitOnChar` always returns a non-empty list). -/
def modifyLast (f : Str → Str) : List Str → List Str
  | [] => []
  | [x] => [f x]
  | x :: y :: xs => x :: modifyLast f (y :: xs)

theorem splitOnChar_ne_nil (c : Char) (l : Str) : splitOnChar c l ≠ [] := by
  cases l with
  | nil => simp [splitOnChar]
  | cons x xs =>
    simp only [splitOnChar]
    by_cases hx : x = c <;> simp [hx]

theorem splitOnChar_of_not_mem {c : Char} {l : Str} (h : c ∉ l) :
    splitOnChar c l = [l] := by
  induction l with
  | nil => rfl
  | cons x xs ih =>
    have hx : x ≠ c := fun he => h (he ▸ List.mem_cons_self x xs)
    have hxs : c ∉ xs := fun hm => h (List.mem_cons_of_mem x hm)
    simp [splitOnChar, hx, ih hxs]

theorem splitOnChar_append_cons {c : Char} {p : Str} (l : Str) (h : c ∉ p) :
    splitOnChar c (p ++ c :: l) = p :: splitOnChar c l := by
  induction p with
  | nil => simp [splitOnChar]
  | cons a p' ih =>
    have ha : a ≠ c := fun he => h (he ▸ List.mem_cons_self a p')
    have hp : c ∉ p' := fun hm => h (List.mem_cons_of_mem a hm)
    simp [splitOnChar, ha, ih hp]

theorem splitOnChar_joinChar {c : Char} {parts : List Str}
    (hne : parts ≠ []) (h : ∀ p ∈ parts, c ∉ p) :
    splitOnChar c (joinChar c parts) = parts := by
  induction parts with
  | nil => exact absurd rfl hne
  | cons p ps ih =>
    cases ps with
    | nil =>
      simp only [joinChar]
      exact splitOnChar_of_not_mem (h p (List.mem_cons_self p []))
    | cons q ps' =>
      simp only [joinChar]
      rw [splitOnChar_append_cons _ (h p (List.mem_cons_self p _))]
      rw [ih (by simp) (fun x hx => h x (List.mem_cons_of_mem p hx))]

theorem not_mem_joinChar {c x : Char} {parts : List Str}
    (hx : x ≠ c) (h : ∀ p ∈ parts, x ∉ p) : x ∉ joinChar c parts := by
  induction parts with
  | nil => simp [joinChar]
  | cons p ps ih =>
    cases ps with
    | nil => exact h p (List.mem_cons_self p [])
    | cons q ps' =>
      simp only [joinChar, List.mem_append, List.mem_cons]
      push_neg
      exact ⟨h p (List.mem_cons_self p _), hx,
        ih (fun y hy => h y (List.mem_cons_of_mem p hy))⟩

theorem basename_of_not_mem {f : Str} (h : ('/' : Char) ∉ f) :
    basename f = f := by
  simp [basename, splitOnChar_of_not_mem h]

/- ### Name codec (mms.py `construct_filename`, lines 914-1003, and
`parse_file_names`, lines 1325-1369)

`construct_filename` joins the components with `_`, wraps the version as
`vX.Y.Z.cdf`, omits the optional-descriptor segment when it is `None`, and
produces the cartesian product over multi-valued fields (nested list
comprehension, loop order `sc, instr, mode, level, [optdesc], tstart,
version`).

`parse_file_names` splits the basename on `_`, inserts an empty descriptor
at index `len-2` when only 6 fields are present (`parts.insert(-2, '')`),
and replaces the last field by `parts[-1][1:-4]` (strip the leading `v` and
the `.cdf` extension). -/

/-- The last name segment: `'v' + version + '.cdf'`. -/
def vExt (v : Str) : Str := 'v' :: v ++ ['.', 'c', 'd', 'f']

/-- `construct_filename` (cartesian product of the component lists). -/
def construct_filename (sc instr mode level : List Str)
    (tstart version : List Str) (optdesc : Option (List Str)) : List Str :=
  match optdesc with
  | none =>
    sc.flatMap fun s => instr.flatMap fun i => mode.flatMap fun m =>
      level.flatMap fun l => tstart.flatMap fun t => version.map fun v =>
        joinChar '_' [s, i, m, l, t, vExt v]
  | some od =>
    sc.flatMap fun s => instr.flatMap fun i => mode.flatMap fun m =>
      level.flatMap fun l => od.flatMap fun o => tstart.flatMap fun t =>
        version.map fun v => joinChar '_' [s, i, m, l, o, t, vExt v]

/-- Python slice `x[1:-4]`. -/
def pySliceOneToNegFour (x : Str) : Str := (x.drop 1).take (x.length - 5)

/-- The per-file body of `parse_file_names`: split the basename on `_`,
insert an empty descriptor at index `len-2` when only 6 fields are present,
and strip `v`/`.cdf` from the last field (`parts[-1][1:-4]`). -/
def parse_one (file : Str) : List Str :=
  let parts := splitOnChar '_' (basename file)
  let parts :=
    if parts.length = 6 then parts.take 4 ++ [[]] ++ parts.drop 4 else parts
  modifyLast pySliceOneToNegFour parts

/-- `parse_file_names`: each file name becomes the list
`[sc, instr, mode, level, optdesc, tstart, version]` (a 7-tuple in the
source; descriptor is `""` when the name has only 6 fields). -/
def parse_file_names (fnames : List Str) : List (List Str) :=
  fnames.map parse_one

theorem pySliceOneToNegFour_vExt (v : Str) : pySliceOneToNegFour (vExt v) = v := by
  have hlen : (vExt v).length - 5 = v.length := by
    simp [vExt, List.length_append]
  have hdrop : (vExt v).drop 1 = v ++ ".cdf".toList := by
    simp [vExt]
  rw [pySliceOneToNegFour, hdrop, hlen, List.take_left]


theorem not_mem_vExt {x : Char} {v : Str}
    (hx : x ∉ ('v' :: ['.', 'c', 'd', 'f'] : Str)) (hv : x ∉ v) :
    x ∉ vExt v := by
  intro hmem
  rw [vExt] at hmem
  rcases List.mem_cons.mp hmem with h | h
  · exact hx (List.mem_cons.mpr (Or.inl h))
  · rcases List.mem_append.mp h with h2 | h2
    · exact hv h2
    · exact hx (List.mem_cons_of_mem 'v' h2)

/-- A constructed name without descriptor (6 fields) parses back to the
components with an empty descriptor inserted. -/
theorem parse_one_join6 (s i m l t v : Str)
    (hu : ∀ p ∈ ([s, i, m, l, t, v] : List Str), ('_' : Char) ∉ p)
    (hsl : ∀ p ∈ ([s, i, m, l, t, v] : List Str), ('/' : Char) ∉ p) :
    parse_one (joinChar '_' [s, i, m, l, t, vExt v]) = [s, i, m, l, [], t, v] := by
  have hvu : ('_' : Char) ∉ v := hu v (by simp)
  have hvs : ('/' : Char) ∉ v := hsl v (by simp)
  have hvextu : ('_' : Char) ∉ vExt v := not_mem_vExt (by decide) hvu
  have hvexts : ('/' : Char) ∉ vExt v := not_mem_vExt (by decide) hvs
  have hmemu : ∀ p ∈ ([s, i, m, l, t, vExt v] : List Str), ('_' : Char) ∉ p := by
    intro p hp
    fin_cases hp
    exacts [hu s (by simp), hu i (by simp), hu m (by simp), hu l (by simp),
      hu t (by simp), hvextu]
  have hmems : ∀ p ∈ ([s, i, m, l, t, vExt v] : List Str), ('/' : Char) ∉ p := by
    intro p hp
    fin_cases hp
    exacts [hsl s (by simp), hsl i (by simp), hsl m (by simp), hsl l (by simp),
      hsl t (by simp), hvexts]
  have hslash : ('/' : Char) ∉ joinChar '_' [s, i, m, l, t, vExt v] :=
    not_mem_joinChar (by decide) hmems
  have hsplit : splitOnChar '_' (joinChar '_' [s, i, m, l, t, vExt v])
      = [s, i, m, l, t, vExt v] := splitOnChar_joinChar (by simp) hmemu
  simp only [parse_one, basename_of_not_mem hslash, hsplit]
  simp [modifyLast, pySliceOneToNegFour_vExt]

/-- A constructed name with a descriptor (7 fields) parses back to the
components unchanged. -/
theorem parse_one_join7 (s i m l o t v : Str)
    (hu : ∀ p ∈ ([s, i, m, l, o, t, v] : List Str), ('_' : Char) ∉ p)
    (hsl : ∀ p ∈ ([s, i, m, l, o, t, v] : List Str), ('/' : Char) ∉ p) :
    parse_one (joinChar '_' [s, i, m, l, o, t, vExt v])
      = [s, i, m, l, o, t, v] := by
  have hvu : ('_' : Char) ∉ v := hu v (by simp)
  have hvs : ('/' : Char) ∉ v := hsl v (by simp)
  have hvextu : ('_' : Char) ∉ vExt v := not_mem_vExt (by decide) hvu
  have hvexts : ('/' : Char) ∉ vExt v := not_mem_vExt (by decide) hvs
  have hmemu : ∀ p ∈ ([s, i, m, l, o, t, vExt v] : List Str), ('_' : Char) ∉ p := by
    intro p hp
    fin_cases hp
    exacts [hu s (by simp), hu i (by simp), hu m (by simp), hu l (by simp),
      hu o (by simp), hu t (by simp), hvextu]
  have hmems : ∀ p ∈ ([s, i, m, l, o, t, vExt v] : List Str), ('/' : Char) ∉ p := by
    intro p hp
    fin_cases hp
    exacts [hsl s (by simp), hsl i (by simp), hsl m (by simp), hsl l (by simp),
      hsl o (by simp), hsl t (by simp), hvexts]
  have hslash : ('/' : Char) ∉ joinChar '_' [s, i, m, l, o, t, vExt v] :=
    not_mem_joinChar (by decide) hmems
  have hsplit : splitOnChar '_' (joinChar '_' [s, i, m, l, o, t, vExt v])
      = [s, i, m, l, o, t, vExt v] := splitOnChar_joinChar (by simp) hmemu
  simp only [parse_one, basename_of_not_mem hslash, hsplit]
  simp [modifyLast, pySliceOneToNegFour_vExt]

/-- Claim C5: for every valid scalar component tuple (spacecraft, instrument,
mode, level, optional descriptor, timestamp, version), with every segment
free of the `_` delimiter (and of the path separator `/`, which would move
the `os.path.basename` boundary), parsing the constructed file name returns
exactly the components, with the descriptor normalized to the empty string
when omitted. -/
theorem C5_parse_construct_roundtrip (s i m l o t v : Str)
    (hs : ('_' : Char) ∉ s ∧ ('/' : Char) ∉ s)
    (hi : ('_' : Char) ∉ i ∧ ('/' : Char) ∉ i)
    (hm : ('_' : Char) ∉ m ∧ ('/' : Char) ∉ m)
    (hl : ('_' : Char) ∉ l ∧ ('/' : Char) ∉ l)
    (ho : ('_' : Char) ∉ o ∧ ('/' : Char) ∉ o)
    (ht : ('_' : Char) ∉ t ∧ ('/' : Char) ∉ t)
    (hv : ('_' : Char) ∉ v ∧ ('/' : Char) ∉ v) :
    parse_file_names (construct_filename [s] [i] [m] [l] [t] [v] none)
      = [[s, i, m, l, [], t, v]]
    ∧ parse_file_names (construct_filename [s] [i] [m] [l] [t] [v] (some [o]))
      = [[s, i, m, l, o, t, v]] := by
  constructor
  · have hc : construct_filename [s] [i] [m] [l] [t] [v] none
        = [joinChar '_' [s, i, m, l, t, vExt v]] := by
      simp [construct_filename]
    rw [hc, parse_file_names, List.map_singleton]
    rw [parse_one_join6 s i m l t v
      (by intro p hp
          fin_cases hp
          exacts [hs.1, hi.1, hm.1, hl.1, ht.1, hv.1])
      (by intro p hp
          fin_cases hp
          exacts [hs.2, hi.2, hm.2, hl.2, ht.2, hv.2])]
  · have hc : construct_filename [s] [i] [m] [l] [t] [v] (some [o])
        = [joinChar '_' [s, i, m, l, o, t, vExt v]] := by
      simp [construct_filename]
    rw [hc, parse_file_names, List.map_singleton]
    rw [parse_one_join7 s i m l o t v
      (by intro p hp
          fin_cases hp
          exacts [hs.1, hi.1, hm.1, hl.1, ho.1, ht.1, hv.1])
      (by intro p hp
          fin_cases hp
          exacts [hs.2, hi.2, hm.2, hl.2, ho.2, ht.2, hv.2])]

/-- Witness for C5 at a concrete component tuple
(`mms1`, `fpi`, `brst`, `l2`, descriptor `dis-moms`, `20190101123000`,
version `1.0.0`). -/
theorem C5_parse_construct_roundtrip_witness :
    parse_file_names (construct_filename ["mms1".toList] ["fpi".toList]
        ["brst".toList] ["l2".toList] ["20190101123000".toList]
        ["1.0.0".toList] none)
      = [["mms1".toList, "fpi".toList, "brst".toList, "l2".toList, [],
          "20190101123000".toList, "1.0.0".toList]]
    ∧ parse_file_names (construct_filename ["mms1".toList] ["fpi".toList]
        ["brst".toList] ["l2".toList] ["20190101123000".toList]
        ["1.0.0".toList] (some ["dis-moms".toList]))
      = [["mms1".toList, "fpi".toList, "brst".toList, "l2".toList,
          "dis-moms".toList, "20190101123000".toList, "1.0.0".toList]] :=
  C5_parse_construct_roundtrip "mms1".toList "fpi".toList "brst".toList
    "l2".toList "dis-moms".toList "20190101123000".toList "1.0.0".toList
    (by decide) (by decide) (by decide) (by decide) (by decide) (by decide)
    (by decide)

/- ### `filter_time` (mms.py lines 1181-1248)

The source parses each file's start time, sorts files and start times
together by start time, keeps indices with `t <= end_date`, computes
`idx = [i for i, t in enumerate(fstart) if t >= start_date]`, and then:

    if (len(idx) == 0) & (fstart[-1].date() == start_date.date()):
        idx = [len(fstart)-1]
    elif (len(idx) != 0) & ((idx[0] != 0) & (fstart[idx[0]] != start_date)):
        idx.insert(0, idx[0]-1)

Python's `&` evaluates both operands, so `fstart[-1]` is evaluated even when
`len(idx) != 0` (IndexError on an empty `fstart`), and `idx[0]` is evaluated
whenever the first condition is false (IndexError on an empty `idx`).
Files are modelled by their parsed start times: every decision and selection
in the source goes through `fstart` and index lists applied identically to
`files` and `fstart`. -/

/-- The sort and end-date steps of `filter_time`: files sorted ascending by
start time, keeping those with `t <= end_date`. -/
def sortedKept (fnames : List Int) (end_date : Int) : List Int :=
  (List.insertionSort (· ≤ ·) fnames).filter (fun t => decide (t ≤ end_date))

/-- The branch logic of `filter_time` after `fstart` and
`idx = [i for i, t in enumerate(fstart) if t >= start_date]` have been
computed.  The first branch condition evaluates `fstart[-1]` eagerly
(IndexError on an empty `fstart`), the `elif` condition evaluates `idx[0]`
eagerly (IndexError on an empty `idx`); otherwise, when the first condition
holds, `idx = [len(fstart)-1]`, and when the `elif` condition holds,
`idx.insert(0, idx[0]-1)`; the result is `[files[i] for i in idx]`. -/
def pyStartFilter (fstart : List Int) (start_date : Int) (idx : List Nat) :
    Except PyErr (List Int) :=
  if fstart.length = 0 then
    .error .indexError
  else if idx = [] then
    if dateOf (fstart.getLastD 0) = dateOf start_date then
      .ok [fstart.getLastD 0]
    else
      .error .indexError
  else
    .ok ((if idx.headD 0 ≠ 0 ∧ fstart.getD (idx.headD 0) 0 ≠ start_date
      then (idx.headD 0 - 1) :: idx else idx).map (fun i => fstart.getD i 0))

/-- `filter_time`: sort by start time, keep files with `t <= end_date`, then
apply the start-date branch logic. -/
def filter_time (fnames : List Int) (start_date end_date : Int) :
    Except PyErr (List Int) :=
  pyStartFilter (sortedKept fnames end_date) start_date
    ((List.range (sortedKept fnames end_date).length).filter
      (fun i => decide (start_date ≤ (sortedKept fnames end_date).getD i 0)))

theorem filter_range_eq_range' (n j : Nat) (p : Nat → Bool)
    (hp : ∀ i, i < n → p i = decide (j ≤ i)) :
    (List.range n).filter p = List.range' j (n - j) := by
  induction n with
  | zero => simp
  | succ n ih =>
    rw [List.range_succ, List.filter_append,
      ih (fun i hi => hp i (Nat.lt_succ_of_lt hi))]
    by_cases hj : j ≤ n
    · have hpn : p n = true := by
        rw [hp n (Nat.lt_succ_self n)]; exact decide_eq_true hj
      have h1 : n + 1 - j = (n - j) + 1 := by omega
      rw [h1, List.range'_concat]
      have h2 : j + 1 * (n - j) = n := by omega
      rw [h2]
      simp [hpn]
    · have hpn : p n = false := by
        rw [hp n (Nat.lt_succ_self n)]
        simp only [decide_eq_false_iff_not]
        omega
      have h1 : n + 1 - j = 0 := by omega
      have h2 : n - j = 0 := by omega
      rw [h1, h2]
      simp [hpn]

theorem map_getD_range' (F : List Int) (j k : Nat) (h : j + k = F.length) :
    (List.range' j k).map (fun i => F.getD i 0) = F.drop j := by
  induction k generalizing j with
  | zero =>
    simp [List.drop_eq_nil_of_le (by omega : F.length ≤ j)]
  | succ k ih =>
    rw [List.range'_succ]
    simp only [List.map_cons]
    have hj : j < F.length := by omega
    rw [List.getD_eq_getElem F 0 hj, List.drop_eq_getElem_cons hj]
    congr 1
    exact ih (j + 1) (by omega)


/-- Behaviour of `filter_time` when some kept file starts on or after
`start_date` (the `dropWhile` suffix is non-empty with head `d`): the result
is the suffix of files starting at or after `start_date`, preceded by the
single file just before it exactly when such a file exists and the first
in-range file does not start exactly at `start_date`. -/
theorem filter_time_of_head (fnames : List Int) (s e d : Int)
    (hd : ((sortedKept fnames e).dropWhile (fun t => decide (t < s))).head?
      = some d) :
    filter_time fnames s e
      = .ok (if (sortedKept fnames e).takeWhile (fun t => decide (t < s)) ≠ []
            ∧ d ≠ s
          then ((sortedKept fnames e).takeWhile
              (fun t => decide (t < s))).getLastD 0
            :: (sortedKept fnames e).dropWhile (fun t => decide (t < s))
          else (sortedKept fnames e).dropWhile (fun t => decide (t < s))) := by
  set F := sortedKept fnames e with hF
  set p : Int → Bool := fun t => decide (t < s) with hp
  set T := F.takeWhile p with hT
  set D := F.dropWhile p with hD
  obtain ⟨D', hD'⟩ : ∃ D', D = d :: D' := by
    cases hDc : D with
    | nil => rw [hDc] at hd; simp at hd
    | cons a t =>
      rw [hDc] at hd
      simp only [List.head?_cons, Option.some.injEq] at hd
      exact ⟨t, by rw [hd]⟩
  have hTD : T ++ D = F := List.takeWhile_append_dropWhile p F
  have hsorted : F.Sorted (· ≤ ·) :=
    (List.sorted_insertionSort (· ≤ ·) fnames).filter _
  have hpd : p d = false := by
    have hmatch := List.head?_dropWhile_not p F
    rw [← hD, hd] at hmatch
    exact hmatch
  have hsd : s ≤ d := by
    have : ¬ d < s := by simpa [hp] using hpd
    omega
  have hlen : F.length = T.length + D.length := by rw [← hTD]; simp
  have hlenD : D.length = D'.length + 1 := by rw [hD']; simp
  have hthresh : ∀ i, i < F.length →
      decide (s ≤ F.getD i 0) = decide (T.length ≤ i) := by
    intro i hi
    by_cases hij : T.length ≤ i
    · have h1 : F.getD i 0 = D.getD (i - T.length) 0 := by
        rw [← hTD]; exact List.getD_append_right T D 0 i hij
      have hiD : i - T.length < D.length := by omega
      have hDsorted : D.Sorted (· ≤ ·) := by
        rw [← hTD] at hsorted
        exact (List.pairwise_append.mp hsorted).2.1
      have hdle : d ≤ D.getD (i - T.length) 0 := by
        rcases Nat.eq_zero_or_pos (i - T.length) with h0 | hpos
        · rw [h0, hD']
          simp
        · obtain ⟨k, hk⟩ : ∃ k, i - T.length = k + 1 :=
            ⟨i - T.length - 1, by omega⟩
          have hkD : k < D'.length := by omega
          have hgd : D.getD (i - T.length) 0 = D'.getD k 0 := by
            rw [hk, hD', List.getD_cons_succ]
          have hmem : D'.getD k 0 ∈ D' := by
            rw [List.getD_eq_getElem D' 0 hkD]
            exact List.getElem_mem hkD
          rw [hgd]
          rw [hD'] at hDsorted
          exact List.rel_of_sorted_cons hDsorted _ hmem
      have hges : s ≤ F.getD i 0 := by rw [h1]; omega
      rw [decide_eq_true hges, decide_eq_true hij]
    · push_neg at hij
      have h1 : F.getD i 0 = T.getD i 0 := by
        rw [← hTD]; exact List.getD_append T D 0 i hij
      have hmem : T.getD i 0 ∈ T := by
        rw [List.getD_eq_getElem T 0 hij]
        exact List.getElem_mem hij
      have hpT : p (T.getD i 0) = true := List.mem_takeWhile_imp (hT ▸ hmem)
      have hlts : T.getD i 0 < s := by simpa [hp] using hpT
      have hnot : ¬ s ≤ F.getD i 0 := by rw [h1]; omega
      rw [decide_eq_false hnot, decide_eq_false (by omega : ¬ T.length ≤ i)]
  have hidx : (List.range F.length).filter (fun i => decide (s ≤ F.getD i 0))
      = T.length :: List.range' (T.length + 1) D'.length := by
    rw [filter_range_eq_range' F.length T.length _ hthresh]
    have h1 : F.length - T.length = D'.length + 1 := by omega
    rw [h1, List.range'_succ]
  have hgetd : F.getD T.length 0 = d := by
    rw [← hTD, List.getD_append_right T D 0 T.length (le_refl _),
      Nat.sub_self, hD']
    rfl
  have hdropD : F.drop T.length = D := by rw [← hTD, List.drop_left]
  have hdrop1 : F.drop (T.length + 1) = D' := by
    have h1 : F.drop (T.length + 1) = (F.drop T.length).drop 1 := by
      rw [List.drop_drop]
    rw [h1, hdropD, hD']
    rfl
  have hmaptail : (List.range' (T.length + 1) D'.length).map
      (fun i => F.getD i 0) = D' := by
    rw [map_getD_range' F (T.length + 1) D'.length (by omega), hdrop1]
  have hmapidx : ((T.length :: List.range' (T.length + 1) D'.length).map
      (fun i => F.getD i 0)) = D := by
    rw [List.map_cons, hgetd, hmaptail, hD']
  have hFlen : ¬ F.length = 0 := by omega
  show pyStartFilter F s
      ((List.range F.length).filter (fun i => decide (s ≤ F.getD i 0))) = _
  rw [hidx]
  unfold pyStartFilter
  rw [if_neg hFlen,
    if_neg (by simp :
      ¬(T.length :: List.range' (T.length + 1) D'.length = []))]
  have hhead : (T.length :: List.range' (T.length + 1) D'.length).headD 0
      = T.length := rfl
  rw [hhead, hgetd]
  by_cases hc : T = [] ∨ d = s
  · have hcond : ¬ (T.length ≠ 0 ∧ d ≠ s) := by
      rcases hc with h | h
      · simp [h]
      · simp [h]
    have hcond2 : ¬ (T ≠ [] ∧ d ≠ s) := by
      rcases hc with h | h
      · simp [h]
      · simp [h]
    rw [if_neg hcond, if_neg hcond2, hmapidx]
  · push_neg at hc
    have hTne : T ≠ [] := hc.1
    have hcond : T.length ≠ 0 ∧ d ≠ s :=
      ⟨by simpa [List.length_eq_zero] using hTne, hc.2⟩
    rw [if_pos hcond, if_pos ⟨hTne, hc.2⟩]
    rw [List.map_cons, hmapidx]
    have hTpos : 0 < T.length := List.length_pos.mpr hTne
    have hpredT : F.getD (T.length - 1) 0 = T.getD (T.length - 1) 0 := by
      rw [← hTD]; exact List.getD_append T D 0 _ (by omega)
    have hlastT : T.getD (T.length - 1) 0 = T.getLastD 0 := by
      rw [List.getD_eq_getElem?_getD, List.getLastD_eq_getLast?,
        List.getLast?_eq_getElem?]
    rw [hpredT, hlastT]

/-- If the sorted kept list contains a file starting exactly at `start_date`,
then the first file starting at-or-after `start_date` is exactly at
`start_date`. -/
theorem head_dropWhile_eq_of_mem (F : List Int) (s d : Int)
    (hsorted : F.Sorted (· ≤ ·))
    (hd : (F.dropWhile (fun t => decide (t < s))).head? = some d)
    (hs : s ∈ F) : d = s := by
  have hTD := List.takeWhile_append_dropWhile (fun t => decide (t < s)) F
  have hpd : (fun t => decide (t < s)) d = false := by
    have hmatch := List.head?_dropWhile_not (fun t => decide (t < s)) F
    rw [hd] at hmatch
    exact hmatch
  have hsd : s ≤ d := by
    have : ¬ d < s := by simpa using hpd
    omega
  rw [← hTD] at hs
  rcases List.mem_append.mp hs with hmem | hmem
  · have h2 := List.mem_takeWhile_imp hmem
    simp at h2
  · obtain ⟨D', hD'⟩ : ∃ D',
        F.dropWhile (fun t => decide (t < s)) = d :: D' := by
      cases hDc : F.dropWhile (fun t => decide (t < s)) with
      | nil => rw [hDc] at hd; simp at hd
      | cons a u =>
        rw [hDc] at hd
        simp only [List.head?_cons, Option.some.injEq] at hd
        exact ⟨u, by rw [hd]⟩
    rw [hD'] at hmem
    rcases List.mem_cons.mp hmem with h | h
    · omega
    · have hDsorted : (d :: D').Sorted (· ≤ ·) := by
        rw [← hTD] at hsorted
        rw [← hD']
        exact (List.pairwise_append.mp hsorted).2.1
      have : d ≤ s := List.rel_of_sorted_cons hDsorted s h
      omega

/-- Claim C3: whenever at least one kept file starts at or after
`start_date` (the sorted end-filtered list has a non-empty suffix of files
with start `>= start_date`, with first element `d`), `filter_time` returns
that suffix together with the single file immediately preceding it, unless
the suffix starts exactly at `start_date` (equivalently, some kept file
starts exactly at `start_date`) or no preceding file exists, in which case
no predecessor is added. -/
theorem C3_filter_time_predecessor (fnames : List Int) (s e : Int) :
    ∀ d, ((sortedKept fnames e).dropWhile (fun t => decide (t < s))).head?
        = some d →
      ((∀ pr, d ≠ s →
          ((sortedKept fnames e).takeWhile
            (fun t => decide (t < s))).getLast? = some pr →
          filter_time fnames s e
            = .ok (pr ::
                (sortedKept fnames e).dropWhile (fun t => decide (t < s))))
        ∧ (s ∈ sortedKept fnames e →
            filter_time fnames s e
              = .ok ((sortedKept fnames e).dropWhile
                  (fun t => decide (t < s))))
        ∧ (d ≠ s →
            (sortedKept fnames e).takeWhile (fun t => decide (t < s)) = [] →
            filter_time fnames s e
              = .ok ((sortedKept fnames e).dropWhile
                  (fun t => decide (t < s))))) := by
  intro d hd
  have hcore := filter_time_of_head fnames s e d hd
  refine ⟨?_, ?_, ?_⟩
  · intro pr hds hpr
    have hTne : (sortedKept fnames e).takeWhile (fun t => decide (t < s))
        ≠ [] := by
      intro h0
      rw [h0] at hpr
      simp at hpr
    rw [hcore, if_pos ⟨hTne, hds⟩, List.getLastD_eq_getLast?, hpr]
    rfl
  · intro hsF
    have hsorted : (sortedKept fnames e).Sorted (· ≤ ·) :=
      (List.sorted_insertionSort (· ≤ ·) fnames).filter _
    have hds : d = s :=
      head_dropWhile_eq_of_mem (sortedKept fnames e) s d hsorted hd hsF
    rw [hcore, if_neg (by rw [hds]; simp)]
  · intro hds hT0
    rw [hcore, if_neg (by simp [hT0])]

/-- Witness for C3 at a concrete input: kept start times
`[2018-12-31, 2019-01-01, 2019-01-02]`, `start_date = 2019-01-01T12:00:00`,
`end_date = 2019-01-03`: the first file at-or-after `start_date` is
`2019-01-02`, no file starts exactly at `start_date`, and the single
predecessor `2019-01-01` is included. -/
theorem C3_filter_time_predecessor_witness :
    filter_time
        [mkdt 2018 12 31 0 0 0, mkdt 2019 1 1 0 0 0, mkdt 2019 1 2 0 0 0]
        (mkdt 2019 1 1 12 0 0) (mkdt 2019 1 3 0 0 0)
      = .ok [mkdt 2019 1 1 0 0 0, mkdt 2019 1 2 0 0 0] := by
  have h := ((C3_filter_time_predecessor
      [mkdt 2018 12 31 0 0 0, mkdt 2019 1 1 0 0 0, mkdt 2019 1 2 0 0 0]
      (mkdt 2019 1 1 12 0 0) (mkdt 2019 1 3 0 0 0))
      (mkdt 2019 1 2 0 0 0) (by rfl)).1
      (mkdt 2019 1 1 0 0 0) (by decide) (by rfl)
  exact h.trans (by rfl)

/-- Counterexample to claim C4: with `start_date = 2019-01-01T12:00:00`,
`end_date = 2019-01-03` (the end filter retains all candidates) and
candidate start times `[2018-12-31, 2019-01-01, 2019-01-02]`, `filter_time`
does not keep all three files. -/
theorem C4_filter_time_scenario_counterexample :
    filter_time
        [mkdt 2018 12 31 0 0 0, mkdt 2019 1 1 0 0 0, mkdt 2019 1 2 0 0 0]
        (mkdt 2019 1 1 12 0 0) (mkdt 2019 1 3 0 0 0)
      ≠ .ok [mkdt 2018 12 31 0 0 0, mkdt 2019 1 1 0 0 0,
          mkdt 2019 1 2 0 0 0] := by
  intro h
  have h2 : filter_time
      [mkdt 2018 12 31 0 0 0, mkdt 2019 1 1 0 0 0, mkdt 2019 1 2 0 0 0]
      (mkdt 2019 1 1 12 0 0) (mkdt 2019 1 3 0 0 0)
      = .ok [mkdt 2019 1 1 0 0 0, mkdt 2019 1 2 0 0 0] := by rfl
  rw [h2] at h
  have h3 := Except.ok.inj h
  exact absurd h3 (by decide)

/-- Claim C4 (amended): with `start_date = 2019-01-01T12:00:00` and candidate
start times `[2018-12-31, 2019-01-01, 2019-01-02]` all retained by the end
filter, `filter_time` keeps `[2019-01-01, 2019-01-02]`: only the single file
immediately preceding the first file with start `>= start_date` is retained;
`2018-12-31` is dropped. -/
theorem C4_filter_time_scenario :
    filter_time
        [mkdt 2018 12 31 0 0 0, mkdt 2019 1 1 0 0 0, mkdt 2019 1 2 0 0 0]
        (mkdt 2019 1 1 12 0 0) (mkdt 2019 1 3 0 0 0)
      = .ok [mkdt 2019 1 1 0 0 0, mkdt 2019 1 2 0 0 0] := by rfl

/-- Claim C6: on an empty file list, or on a list in which no file matches
the query range, `filter_time` does not return an empty list: it raises
IndexError.  The first branch condition evaluates `fstart[-1]` under
Python's non-short-circuiting `&` even though `len(idx) == 0` is already
false, and the `elif` evaluates `idx[0]` even though `len(idx) != 0` is
false.  The second conjunct is a file starting after `end_date` (so the
end filter empties the list); the third is a file before `start_date` on an
earlier calendar day (so `idx` is empty and the date rescue fails). -/
theorem C6_filter_time_empty_raises :
    (∀ s e : Int, filter_time [] s e = .error .indexError)
    ∧ filter_time [mkdt 2019 1 2 0 0 0] (mkdt 2019 1 1 0 0 0)
        (mkdt 2019 1 1 12 0 0) = .error .indexError
    ∧ filter_time [mkdt 2018 12 30 0 0 0] (mkdt 2019 1 2 0 0 0)
        (mkdt 2019 1 3 0 0 0) = .error .indexError :=
  ⟨fun _ _ => rfl, by rfl, by rfl⟩

/- ### `filter_version` (mms.py lines 1251-1322)

The source has several defects, modelled faithfully here:

* `if version is None and min is None: latest = True` — `min` is the Python
  builtin function, which is never `None`, so the "default to latest" branch
  never fires and `latest` keeps its argument value (`None` by default).
* `ValueError('latest, version, and min are mutually exclusive.')` is
  constructed but never raised (there is no `raise`), and its guard counts
  how many of the three modes are `None` rather than how many are set.
* The `latest` branch immediately calls `mms_parse_filename`, a name that is
  not defined anywhere in the module (NameError).
* The `min_version` branch iterates `enumerate(versions)` where `versions`
  is only bound inside the `latest` branch (NameError).
* The `version` branch computes `min_version.split('.')` where `min_version`
  is necessarily `None` (AttributeError).
* The comparisons at lines 1294-1297 and 1305-1307 compare the dot-separated
  version components as Python strings, not as integers. -/

/-- `min is None` where `min` is the Python builtin `min` function: always
false. -/
def pyBuiltinMinIsNone : Bool := false

/-- The guard of the unraised `ValueError`:
`((version is None) + (min_version is None) + (latest is None)) > 1`. -/
def countNoneModes (version min_version : Option Str) (latest : Option Bool) :
    Nat :=
  (if version.isNone then 1 else 0) + (if min_version.isNone then 1 else 0)
    + (if latest.isNone then 1 else 0)

/-- The version comparison of the `latest` branch (lines 1293-1297): split
both versions on `.` and compare the components as Python strings
(`vXYZ[0] > vXYZ_ref[0]`, then tie-break on the second and third
components).  Returns true when the code considers `v` newer than `vref`. -/
def version_gt_code (v vref : Str) : Bool :=
  let vXYZ := splitOnChar '.' v
  let ref := splitOnChar '.' vref
  pyStrGt (vXYZ.getD 0 []) (ref.getD 0 [])
  || (vXYZ.getD 0 [] == ref.getD 0 []
      && pyStrGt (vXYZ.getD 1 []) (ref.getD 1 []))
  || (vXYZ.getD 0 [] == ref.getD 0 [] && vXYZ.getD 1 [] == ref.getD 1 []
      && pyStrGt (vXYZ.getD 2 []) (ref.getD 2 []))

/-- The version comparison the spec requires: numeric, per component. -/
def version_ge_numeric (a1 a2 a3 b1 b2 b3 : Nat) : Bool :=
  decide (b1 < a1) || (a1 == b1 && decide (b2 < a2))
    || (a1 == b1 && a2 == b2 && decide (b3 ≤ a3))

/-- `filter_version`.  Every reachable filtering branch raises; with all
three modes unset the function falls through and returns the (empty)
output list. -/
def filter_version (files : List Str) (latest : Option Bool)
    (version min_version : Option Str) : Except PyErr (List Str) :=
  let latest := if version.isNone && pyBuiltinMinIsNone then some true
    else latest
  let _unraisedValueError :=
    decide (countNoneModes version min_version latest > 1)
  if latest.getD false then
    .error .nameError
  else if min_version.isSome then
    .error .nameError
  else if version.isSome then
    .error .attributeError
  else
    .ok []

/-- Claim C1: `filter_version` in "latest" mode does not behave as claimed.
With neither `version` nor `min_version` given, `latest` is never defaulted
to True (the code tests the builtin `min` instead of `min_version`) and the
call returns the empty list instead of one file per logical-type key; with
`latest=True` it raises NameError (`mms_parse_filename` is undefined); and
the comparison the branch would use ranks version `"9.9.9"` above
`"10.0.0"`, because components are compared as strings (`"9" > "10"`), so
`"10.0.0"` would not be selected over `"9.9.9"`. -/
theorem C1_filter_version_latest_bug :
    filter_version
        ["mms1_fpi_fast_l2_20190101_v9.9.9.cdf".toList,
         "mms1_fpi_fast_l2_20190101_v10.0.0.cdf".toList]
        none none none = .ok []
    ∧ filter_version
        ["mms1_fpi_fast_l2_20190101_v9.9.9.cdf".toList,
         "mms1_fpi_fast_l2_20190101_v10.0.0.cdf".toList]
        (some true) none none = .error .nameError
    ∧ version_gt_code "9.9.9".toList "10.0.0".toList = true
    ∧ version_gt_code "10.0.0".toList "9.9.9".toList = false
    ∧ version_ge_numeric 10 0 0 9 9 9 = true :=
  ⟨rfl, rfl, by decide, by decide, by decide⟩

/-- Claim C7: no call to `filter_version` ever fails with the
conflicting-filter `ValueError`: the error object is constructed but never
raised.  A maximally conflicting call (all of `latest`, `version`,
`min_version` given) instead raises NameError from the `latest` branch, and
the guard as written (which counts `None` modes) does not even hold on that
call. -/
theorem C7_filter_version_no_conflict_error :
    (∀ (files : List Str) (latest : Option Bool)
        (version min_version : Option Str),
      filter_version files latest version min_version
        ≠ .error .valueError)
    ∧ filter_version ["mms1_fpi_fast_l2_20190101_v1.0.0.cdf".toList]
        (some true) (some "1.0.0".toList) (some "1.0.0".toList)
        = .error .nameError
    ∧ countNoneModes (some "1.0.0".toList) (some "1.0.0".toList) (some true)
        = 0 := by
  refine ⟨?_, rfl, rfl⟩
  intro files latest version min_version h
  unfold filter_version at h
  split_ifs at h <;> simp at h
  all_goals split_ifs at h <;> simp at h

/- ### `construct_path` (mms.py lines 1006-1130, paths-only branch) and
`filename2path` (mms.py lines 1133-1178)

`construct_path` (with `files=False`) produces, per component combination,
`root/sc/instr/mode/level[/optdesc]/YYYY/MM/DD` when `mode == 'brst'` and
`root/sc/instr/mode/level[/optdesc]/YYYY/MM` otherwise (`t[0:4]`, `t[4:6]`,
`t[6:8]`).  Paths are modelled as lists of segments (`os.path.join`).

`filename2path` parses each file name (the source calls `parse_filename`,
a name not defined in the module — the evident referent is
`parse_file_names`, used here), joins `root` with `part[0:5]` and the
year/month from `part[5]`, appends a day directory when `part[3] == 'brst'`
— `part[3]` is the *level* field of the parsed 7-tuple, not the mode
(`part[2]`) — and finally appends the file name. -/

/-- `construct_path` with `files=False`. -/
def construct_path (sc instr mode level tstart : List Str)
    (optdesc : Option (List Str)) (root : List Str) : List (List Str) :=
  match optdesc with
  | none =>
    sc.flatMap fun s => instr.flatMap fun i => mode.flatMap fun m =>
      level.flatMap fun l => tstart.map fun t =>
        if m == "brst".toList then
          root ++ [s, i, m, l, t.take 4, (t.drop 4).take 2, (t.drop 6).take 2]
        else
          root ++ [s, i, m, l, t.take 4, (t.drop 4).take 2]
  | some od =>
    sc.flatMap fun s => instr.flatMap fun i => mode.flatMap fun m =>
      level.flatMap fun l => od.flatMap fun o => tstart.map fun t =>
        if m == "brst".toList then
          root ++ [s, i, m, l, o, t.take 4, (t.drop 4).take 2,
            (t.drop 6).take 2]
        else
          root ++ [s, i, m, l, o, t.take 4, (t.drop 4).take 2]

/-- `filename2path`. -/
def filename2path (fnames : List Str) (root : List Str) : List (List Str) :=
  ((parse_file_names fnames).zip fnames).map fun pf =>
    let path := root ++ pf.1.take 5
      ++ [(pf.1.getD 5 []).take 4, ((pf.1.getD 5 []).drop 4).take 2]
    let path := if pf.1.getD 3 [] == "brst".toList
      then path ++ [((pf.1.getD 5 []).drop 6).take 2] else path
    path ++ [pf.2]

/-- Claim C8: the day-directory rule is not applied identically by the two
routines.  `construct_path` includes the day directory exactly when the mode
is `brst` (first two conjuncts: mode `brst` with descriptor `dis-moms`
yields `.../2019/01/01`, mode `fast` yields `.../2019/01`), but
`filename2path` tests `part[3]` — the level — instead of the mode
`part[2]`, so the path it builds for the same `brst` file has no day
directory (third conjunct). -/
theorem C8_day_directory_divergence :
    construct_path ["mms1".toList] ["fpi".toList] ["brst".toList]
        ["l2".toList] ["20190101".toList] (some ["dis-moms".toList]) []
      = [["mms1".toList, "fpi".toList, "brst".toList, "l2".toList,
          "dis-moms".toList, "2019".toList, "01".toList, "01".toList]]
    ∧ construct_path ["mms1".toList] ["fpi".toList] ["fast".toList]
        ["l2".toList] ["20190101".toList] (some ["dis-moms".toList]) []
      = [["mms1".toList, "fpi".toList, "fast".toList, "l2".toList,
          "dis-moms".toList, "2019".toList, "01".toList]]
    ∧ filename2path
        ["mms1_fpi_brst_l2_dis-moms_20190101123000_v1.0.0.cdf".toList] []
      = [["mms1".toList, "fpi".toList, "brst".toList, "l2".toList,
          "dis-moms".toList, "2019".toList, "01".toList,
          "mms1_fpi_brst_l2_dis-moms_20190101123000_v1.0.0.cdf".toList]] :=
  ⟨by decide, by decide, by decide⟩

/- ### `MMSDownloader.__setattr__` (mms.py lines 159-223) and `__init__`
(lines 44-152)

`__setattr__` intercepts assignments: `anc_product` forces
`data_type = 'ancillary'` before storing the value (the value itself is
never inspected); `data_type` validates against
`('ancillary', 'hk', 'science')` and raises ValueError otherwise; `files`
with a non-None value sets `sc, instr, mode, level, optdesc, version` to
None (each through `__setattr__` again, so `level = None` also sets
`site = 'public'`); `level` sets `site` to `'public'` for None/l2/l3 and
`'private'` otherwise; `site` normalizes `private/team/sitl` to `'sitl'`,
accepts `'public'`, and raises ValueError otherwise.  Attributes with no
branch are stored unchanged.  `__init__` assigns `site` first, then
`anc_product`, `data_type`, `dropbox_root`, `end_date`, `instr`, `level`,
`mirror_root`, `mode`, `offline`, `optdesc`, `sc`, `start_date`, `version`,
and `files` last.  String-to-datetime coercion of `start_date`/`end_date`
and the network session are outside the model (dates enter as already
parsed values). -/

/-- The attribute state of an `MMSDownloader`. -/
structure DLState where
  site : Str
  anc_product : Option Bool
  data_type : Str
  dropbox_root : Option Str
  end_date : Option Int
  instr : Option Str
  level : Option Str
  mirror_root : Option Str
  mode : Option Str
  offline : Bool
  optdesc : Option Str
  sc : Option Str
  start_date : Option Int
  version : Option Str
  files : Option (List Str)
  deriving Repr, DecidableEq

/-- `self.data_type = value`. -/
def set_data_type (st : DLState) (v : Str) : Except PyErr DLState :=
  if v = "ancillary".toList ∨ v = "hk".toList ∨ v = "science".toList then
    .ok { st with data_type := v }
  else
    .error .valueError

/-- `self.anc_product = value`: first sets `data_type = 'ancillary'`
(whatever `value` is), then stores the value. -/
def set_anc_product (st : DLState) (v : Option Bool) : Except PyErr DLState := do
  let st ← set_data_type st "ancillary".toList
  .ok { st with anc_product := v }

/-- `self.site = value`. -/
def set_site (st : DLState) (v : Str) : Except PyErr DLState :=
  if v = "private".toList ∨ v = "team".toList ∨ v = "sitl".toList then
    .ok { st with site := "sitl".toList }
  else if v = "public".toList then
    .ok { st with site := "public".toList }
  else
    .error .valueError

/-- `self.level = value`: sets `site` first (`public` for None/l2/l3,
`private` otherwise), then stores the level. -/
def set_level (st : DLState) (v : Option Str) : Except PyErr DLState := do
  let st ← if v = none ∨ v = some "l2".toList ∨ v = some "l3".toList then
      set_site st "public".toList
    else
      set_site st "private".toList
  .ok { st with level := v }

/-- `self.files = value`: a non-None value clears `sc`, `instr`, `mode`,
`level`, `optdesc` and `version` (each assignment going through
`__setattr__` again), then the value is stored. -/
def set_files (st : DLState) (v : Option (List Str)) : Except PyErr DLState := do
  let st ← if v.isSome then do
      let st := { st with sc := none }
      let st := { st with instr := none }
      let st := { st with mode := none }
      let st ← set_level st none
      let st := { st with optdesc := none }
      pure { st with version := none }
    else
      pure st
  .ok { st with files := v }

/-- The attribute values of a freshly allocated object (Python objects start
with no attributes; `__init__` assigns every modelled field before it is
read, so the initial values are irrelevant). -/
def initState : DLState where
  site := []
  anc_product := none
  data_type := []
  dropbox_root := none
  end_date := none
  instr := none
  level := none
  mirror_root := none
  mode := none
  offline := false
  optdesc := none
  sc := none
  start_date := none
  version := none
  files := none

/-- `MMSDownloader.__init__`: the assignment sequence of lines 125-141
(`site` before `level`, `files` last). -/
def mms_init (sc instr mode level : Option Str) (anc_product : Option Bool)
    (data_type : Str) (dropbox_root : Option Str) (end_date : Option Int)
    (files : Option (List Str)) (mirror_root : Option Str) (offline : Bool)
    (optdesc : Option Str) (site : Str) (start_date : Option Int)
    (version : Option Str) : Except PyErr DLState := do
  let st := initState
  let st ← set_site st site
  let st ← set_anc_product st anc_product
  let st ← set_data_type st data_type
  let st := { st with dropbox_root := dropbox_root }
  let st := { st with end_date := end_date }
  let st := { st with instr := instr }
  let st ← set_level st level
  let st := { st with mirror_root := mirror_root }
  let st := { st with mode := mode }
  let st := { st with offline := offline }
  let st := { st with optdesc := optdesc }
  let st := { st with sc := sc }
  let st := { st with start_date := start_date }
  let st := { st with version := version }
  set_files st files

/-- Claim C9: immediately after assigning any non-None value to `files`,
the product-selection attributes `sc`, `instr`, `mode`, `level`, `optdesc`
and `version` are all None, whatever the previous state was. -/
theorem C9_files_clears_selection (st : DLState) (v : List Str) :
    (set_files st (some v)).map
        (fun st' => (st'.sc, st'.instr, st'.mode, st'.level, st'.optdesc,
          st'.version))
      = .ok (none, none, none, none, none, none) := rfl

/-- Claim C10: assigning any value whatsoever to `anc_product` — including
None or False — sets `data_type` to `'ancillary'` (first conjunct: the
assigned value is never inspected).  The constructor's default
`anc_product=None` therefore also triggers this derivation, and the final
`data_type` of a default-constructed object is `'science'` only because
`data_type` is assigned afterwards (second and third conjuncts). -/
theorem C10_anc_product_forces_ancillary :
    (∀ (st : DLState) (v : Option Bool),
      (set_anc_product st v).map DLState.data_type = .ok "ancillary".toList)
    ∧ ((set_anc_product initState none).map DLState.data_type
        = .ok "ancillary".toList)
    ∧ (mms_init none none none none none "science".toList none none none
          none false none "public".toList none none).map DLState.data_type
        = .ok "science".toList :=
  ⟨fun _ _ => rfl, rfl, rfl⟩
